import Mathlib

/-! Shallow embedding of the image-processing pipeline in
src/my-project/src/lib/imageOps.ts, together with theorems about its
stages.  Pixel channels are 8-bit values modelled as naturals;
JavaScript number arithmetic is modelled exactly over the rationals,
extended with signed infinities and NaN (XNum) for the
brightness/contrast stage, whose contrast factor can divide by zero.
The ambient Math.random-driven Gaussian deviates and Math.exp are
modelled as oracle parameters (g and mexp). -/

namespace ImageOps

/-- RGBA pixel; each channel is an 8-bit value stored as a natural number. -/
structure Pixel where
  r : ℕ
  g : ℕ
  b : ℕ
  a : ℕ
deriving DecidableEq

/-- Row-major RGBA buffer with its declared dimensions (the ImageData value). -/
structure ImageData where
  width : ℕ
  height : ℕ
  data : List Pixel
deriving DecidableEq

/-- Round half to even, the rounding applied when a JavaScript number is
stored into a Uint8ClampedArray slot. -/
def roundHalfEven (q : ℚ) : ℤ :=
  if q - ⌊q⌋ < 1/2 then ⌊q⌋
  else if 1/2 < q - ⌊q⌋ then ⌊q⌋ + 1
  else if ⌊q⌋ % 2 = 0 then ⌊q⌋ else ⌊q⌋ + 1

/-- Store a finite JavaScript number into a Uint8ClampedArray slot:
clamp to the interval from 0 to 255, then round half to even. -/
def toByte (q : ℚ) : ℕ :=
  if q ≤ 0 then 0
  else if 255 ≤ q then 255
  else (roundHalfEven q).toNat

/-- clamp from imageOps.ts: v less than lo gives lo, v greater than hi
gives hi, otherwise v. -/
def clamp (v lo hi : ℚ) : ℚ :=
  if v < lo then lo else if hi < v then hi else v

/-- JavaScript double for the brightness/contrast stage: a finite rational,
an infinity, or NaN. -/
inductive XNum where
  | fin : ℚ → XNum
  | pinf : XNum
  | ninf : XNum
  | nan : XNum
deriving DecidableEq

namespace XNum

/-- IEEE addition on the values the brightness/contrast stage can produce. -/
def add : XNum → XNum → XNum
  | nan, _ => nan
  | _, nan => nan
  | fin a, fin b => fin (a + b)
  | pinf, ninf => nan
  | ninf, pinf => nan
  | pinf, _ => pinf
  | ninf, _ => ninf
  | fin _, pinf => pinf
  | fin _, ninf => ninf

/-- IEEE multiplication; an infinity times zero is NaN. -/
def mul : XNum → XNum → XNum
  | nan, _ => nan
  | _, nan => nan
  | fin a, fin b => fin (a * b)
  | pinf, fin a => if 0 < a then pinf else if a < 0 then ninf else nan
  | ninf, fin a => if 0 < a then ninf else if a < 0 then pinf else nan
  | fin a, pinf => if 0 < a then pinf else if a < 0 then ninf else nan
  | fin a, ninf => if 0 < a then ninf else if a < 0 then pinf else nan
  | pinf, pinf => pinf
  | pinf, ninf => ninf
  | ninf, pinf => ninf
  | ninf, ninf => pinf

/-- JavaScript strict less-than; every comparison with NaN is false. -/
def lt : XNum → XNum → Bool
  | nan, _ => false
  | _, nan => false
  | fin a, fin b => decide (a < b)
  | pinf, _ => false
  | ninf, ninf => false
  | ninf, _ => true
  | fin _, pinf => true
  | fin _, ninf => false

/-- IEEE division of two finite doubles, as used for the contrast factor:
a nonzero numerator over zero gives a signed infinity, zero over zero NaN. -/
def jsDiv (a b : ℚ) : XNum :=
  if b = 0 then (if 0 < a then pinf else if a < 0 then ninf else nan)
  else fin (a / b)

/-- clamp from imageOps.ts lifted to JavaScript numbers, keeping the
source's comparison order, so NaN falls through unchanged. -/
def clampX (v lo hi : XNum) : XNum :=
  if lt v lo then lo else if lt hi v then hi else v

/-- Store into a Uint8ClampedArray slot: NaN becomes 0, infinities clamp. -/
def toByteX : XNum → ℕ
  | fin q => toByte q
  | pinf => 255
  | ninf => 0
  | nan => 0

end XNum

/-- applyBrightnessContrast from imageOps.ts.  The contrast factor
f = (259 * (c + 1)) / (255 * (1 - c)) is computed with JavaScript
division, so contrastPct = 100 yields positive Infinity.  There is no
early return when both percentages are zero. -/
def applyBrightnessContrast (data : ImageData) (brightnessPct contrastPct : ℚ) : ImageData :=
  let b : ℚ := brightnessPct / 100 * 255
  let c : ℚ := contrastPct / 100
  let f : XNum := XNum.jsDiv (259 * (c + 1)) (255 * (1 - c))
  let chan : ℕ → ℕ := fun v =>
    XNum.toByteX (XNum.clampX
      (XNum.add (XNum.add (XNum.mul f (XNum.fin ((v : ℚ) - 128))) (XNum.fin 128)) (XNum.fin b))
      (XNum.fin 0) (XNum.fin 255))
  ⟨data.width, data.height,
    data.data.map (fun p => ⟨chan p.r, chan p.g, chan p.b, p.a⟩)⟩

/-- rgbToHsl from imageOps.ts; the channels are first normalized into the
unit interval, and the hue/saturation defaults 0 survive when max = min. -/
def rgbToHsl (r0 g0 b0 : ℚ) : ℚ × ℚ × ℚ :=
  let r := r0 / 255
  let g := g0 / 255
  let b := b0 / 255
  let mx := max r (max g b)
  let mn := min r (min g b)
  let l := (mx + mn) / 2
  if mx = mn then (0, 0, l)
  else
    let d := mx - mn
    let s := if 1/2 < l then d / (2 - mx - mn) else d / (mx - mn)
    let h :=
      if mx = r then (g - b) / d + (if g < b then 6 else 0)
      else if mx = g then (b - r) / d + 2
      else (r - g) / d + 4
    (h / 6, s, l)

/-- hue2rgb from imageOps.ts, with the two sequential wrap adjustments. -/
def hue2rgb (p q t0 : ℚ) : ℚ :=
  let t1 := if t0 < 0 then t0 + 1 else t0
  let t := if 1 < t1 then t1 - 1 else t1
  if t < 1/6 then p + (q - p) * 6 * t
  else if t < 1/2 then q
  else if t < 2/3 then p + (q - p) * (2/3 - t) * 6
  else p

/-- hslToRgb from imageOps.ts; the achromatic branch returns the
lightness on all three channels, scaled back to the byte range. -/
def hslToRgb (h s l : ℚ) : ℚ × ℚ × ℚ :=
  if s = 0 then (l * 255, l * 255, l * 255)
  else
    let q := if l < 1/2 then l * (1 + s) else l + s - l * s
    let p := 2 * l - q
    (hue2rgb p q (h + 1/3) * 255, hue2rgb p q h * 255, hue2rgb p q (h - 1/3) * 255)

/-- applySaturation from imageOps.ts. -/
def applySaturation (data : ImageData) (saturationPct : ℚ) : ImageData :=
  if saturationPct = 0 then data
  else
    let factor := 1 + saturationPct / 100
    ⟨data.width, data.height,
      data.data.map (fun p =>
        let hsl := rgbToHsl (p.r : ℚ) (p.g : ℚ) (p.b : ℚ)
        let s2 := max 0 (min 1 (hsl.2.1 * factor))
        let rgb := hslToRgb hsl.1 s2 hsl.2.2
        ⟨toByte (clamp rgb.1 0 255), toByte (clamp rgb.2.1 0 255),
         toByte (clamp rgb.2.2 0 255), p.a⟩)⟩

/-- Per-pixel loop of applyGaussianNoise; g enumerates the successive
return values of gaussianRandom(0, sigma) (Box-Muller over the ambient
Math.random, modelled as an oracle), three per pixel in r, g, b order. -/
def noiseMap (g : ℕ → ℚ) : ℕ → List Pixel → List Pixel
  | _, [] => []
  | i, p :: rest =>
      ⟨toByte (clamp ((p.r : ℚ) + g (3 * i)) 0 255),
       toByte (clamp ((p.g : ℚ) + g (3 * i + 1)) 0 255),
       toByte (clamp ((p.b : ℚ) + g (3 * i + 2)) 0 255), p.a⟩ :: noiseMap g (i + 1) rest

/-- applyGaussianNoise from imageOps.ts. -/
def applyGaussianNoise (g : ℕ → ℚ) (data : ImageData) (sigma : ℚ) : ImageData :=
  if sigma ≤ 0 then data
  else ⟨data.width, data.height, noiseMap g 0 data.data⟩

/-- Per-channel 256-bin histogram of applyAutoWhiteBalance, as a counting
function over the pixel list. -/
def hist (chan : Pixel → ℕ) (data : List Pixel) : ℕ → ℕ :=
  fun v => (data.filter (fun p => chan p == v)).length

/-- Math.round: round half toward positive infinity. -/
def jsRound (q : ℚ) : ℤ := ⌊q + 1/2⌋

/-- Ascending scan of lowHigh: fuel counts the remaining bins, v is the
current bin, acc the count accumulated so far; returns the first bin
whose cumulative count exceeds clipN, or the initial value 0 when the
loop finishes without a break. -/
def lowLoop (hst : ℕ → ℕ) (clipN : ℕ) : ℕ → ℕ → ℕ → ℕ
  | 0, _, _ => 0
  | fuel + 1, v, acc =>
      if clipN < acc + hst v then v else lowLoop hst clipN fuel (v + 1) (acc + hst v)

/-- Descending scan of lowHigh, returning the initial value 255 when the
loop finishes without a break. -/
def highLoop (hst : ℕ → ℕ) (clipN : ℕ) : ℕ → ℕ → ℕ → ℕ
  | 0, _, _ => 255
  | fuel + 1, v, acc =>
      if clipN < acc + hst v then v else highLoop hst clipN fuel (v - 1) (acc + hst v)

/-- lowHigh from applyAutoWhiteBalance: percentile bounds with the
degenerate-histogram fallback to the full range. -/
def lowHigh (hst : ℕ → ℕ) (clipN : ℕ) : ℕ × ℕ :=
  let lo := lowLoop hst clipN 256 0 0
  let hi := highLoop hst clipN 256 255 0
  if hi ≤ lo then (0, 255) else (lo, hi)

/-- Divisor of makeLut: hi - lo with the JavaScript falsy-zero guard
written as hi - lo or-else 1 in the source. -/
def lutRange (lo hi : ℕ) : ℚ :=
  if (hi : ℚ) - (lo : ℚ) = 0 then 1 else (hi : ℚ) - (lo : ℚ)

/-- makeLut from applyAutoWhiteBalance, as a mapping on channel values. -/
def makeLut (lo hi : ℕ) : ℕ → ℕ :=
  fun v =>
    let t := ((v : ℚ) - (lo : ℚ)) / lutRange lo hi * 255
    toByte (clamp t 0 255)

/-- applyAutoWhiteBalance from imageOps.ts (clipPct is the explicit clip
fraction parameter, 1/200 at the pipeline's call site). -/
def applyAutoWhiteBalance (data : ImageData) (clipPct : ℚ) : ImageData :=
  if data.width * data.height = 0 then data
  else
    let n := data.width * data.height
    let clipN : ℕ := (max 0 (min ((n : ℤ) - 1) (jsRound ((n : ℚ) * clipPct)))).toNat
    let lr := makeLut (lowHigh (hist Pixel.r data.data) clipN).1 (lowHigh (hist Pixel.r data.data) clipN).2
    let lg := makeLut (lowHigh (hist Pixel.g data.data) clipN).1 (lowHigh (hist Pixel.g data.data) clipN).2
    let lb := makeLut (lowHigh (hist Pixel.b data.data) clipN).1 (lowHigh (hist Pixel.b data.data) clipN).2
    ⟨data.width, data.height,
      data.data.map (fun p => ⟨lr p.r, lg p.g, lb p.b, p.a⟩)⟩

/-- makeGaussianKernel from imageOps.ts; mexp models Math.exp, an
arbitrary function in the embedding and strictly positive in theorems.
Returns the normalized weights together with the radius. -/
def makeGaussianKernel (mexp : ℚ → ℚ) (sigma : ℚ) : List ℚ × ℕ :=
  if sigma ≤ 1/10 then ([1], 0)
  else
    let radius : ℕ := (max 1 (min 20 ⌈sigma * 3⌉)).toNat
    let size := 2 * radius + 1
    let sigma2 := sigma * sigma
    let raw := (List.range size).map (fun (j : ℕ) =>
      mexp (-(((j : ℚ) - (radius : ℚ)) * ((j : ℚ) - (radius : ℚ))) / (2 * sigma2)))
    let s := raw.sum
    (raw.map (fun v => v / s), radius)

/-- Default pixel read through getD; in the source every sampled index is
in range, so this default is never consulted on well-formed buffers. -/
def zeroPix : Pixel := ⟨0, 0, 0, 0⟩

/-- Clamp-to-edge sample of the horizontal pass: the x coordinate is
offset by k, clamped into the row, and the pixel at row y is read. -/
def sampleClampH (src : List Pixel) (w y x : ℕ) (k : ℤ) : Pixel :=
  src.getD (y * w + (min ((w : ℤ) - 1) (max 0 ((x : ℤ) + k))).toNat) zeroPix

/-- Clamp-to-edge sample of the vertical pass: the y coordinate is offset
by k, clamped into the column, and the pixel at column x is read. -/
def sampleClampV (src : List Pixel) (w h y x : ℕ) (k : ℤ) : Pixel :=
  src.getD ((min ((h : ℤ) - 1) (max 0 ((y : ℤ) + k))).toNat * w + x) zeroPix

/-- Horizontal pass of applyGaussianBlur with clamp-to-edge sampling of
the x coordinate; each output slot is stored through Uint8ClampedArray
rounding, as in the source's tmp buffer. -/
def blurPassH (kernel : List ℚ) (radius w h : ℕ) (src : List Pixel) : List Pixel :=
  (List.range (w * h)).map (fun di =>
    let y := di / w
    let x := di % w
    let sumC : (Pixel → ℕ) → ℚ := fun chan =>
      ((List.range (2 * radius + 1)).map (fun (j : ℕ) =>
        ((chan (sampleClampH src w y x ((j : ℤ) - (radius : ℤ))) : ℚ)) * kernel.getD j 0)).sum
    ⟨toByte (sumC Pixel.r), toByte (sumC Pixel.g), toByte (sumC Pixel.b), toByte (sumC Pixel.a)⟩)

/-- Vertical pass of applyGaussianBlur with clamp-to-edge sampling of
the y coordinate. -/
def blurPassV (kernel : List ℚ) (radius w h : ℕ) (src : List Pixel) : List Pixel :=
  (List.range (w * h)).map (fun di =>
    let y := di / w
    let x := di % w
    let sumC : (Pixel → ℕ) → ℚ := fun chan =>
      ((List.range (2 * radius + 1)).map (fun (j : ℕ) =>
        ((chan (sampleClampV src w h y x ((j : ℤ) - (radius : ℤ))) : ℚ)) * kernel.getD j 0)).sum
    ⟨toByte (sumC Pixel.r), toByte (sumC Pixel.g), toByte (sumC Pixel.b), toByte (sumC Pixel.a)⟩)

/-- applyGaussianBlur from imageOps.ts: early-out guard, kernel build,
horizontal pass into tmp, vertical pass into the output buffer. -/
def applyGaussianBlur (mexp : ℚ → ℚ) (data : ImageData) (sigmaPx : ℚ) : ImageData :=
  if sigmaPx ≤ 1/10 then data
  else
    let kr := makeGaussianKernel mexp sigmaPx
    ⟨data.width, data.height,
      blurPassV kr.1 kr.2 data.width data.height
        (blurPassH kr.1 kr.2 data.width data.height data.data)⟩

/-- Adjustments record from imageOps.ts. -/
structure Adjustments where
  autoWhiteBalance : Bool
  noiseSigma : ℚ
  blurPx : ℚ
  brightness : ℚ
  contrast : ℚ
  saturation : ℚ
deriving DecidableEq

/-- applyPipeline from imageOps.ts; the defaulted clip fraction 0.005 of
applyAutoWhiteBalance is passed explicitly as 1/200. -/
def applyPipeline (mexp : ℚ → ℚ) (g : ℕ → ℚ) (input : ImageData) (adj : Adjustments) : ImageData :=
  let img1 := if adj.autoWhiteBalance then applyAutoWhiteBalance input (1/200) else input
  let img2 := if 0 < adj.noiseSigma then applyGaussianNoise g img1 adj.noiseSigma else img1
  let img3 := if adj.brightness ≠ 0 ∨ adj.contrast ≠ 0 then
      applyBrightnessContrast img2 adj.brightness adj.contrast else img2
  let img4 := if adj.saturation ≠ 0 then applySaturation img3 adj.saturation else img3
  if 0 < adj.blurPx then applyGaussianBlur mexp img4 adj.blurPx else img4

/-- Uniform image: width times height copies of one pixel, used to state
the constant-image claims. -/
def mkUniform (w h : ℕ) (p : Pixel) : ImageData := ⟨w, h, List.replicate (w * h) p⟩

end ImageOps

/-- Identity guard of applyGaussianNoise: nonpositive sigma returns the
input reference unchanged. -/
theorem applyGaussianNoise_nonpos (g : ℕ → ℚ) (img : ImageOps.ImageData) (sigma : ℚ)
    (h : sigma ≤ 0) : ImageOps.applyGaussianNoise g img sigma = img := by
  unfold ImageOps.applyGaussianNoise
  rw [if_pos h]

/-- Identity guard of applyGaussianBlur: sigma at most one tenth returns
the input reference unchanged. -/
theorem applyGaussianBlur_smallSigma (mexp : ℚ → ℚ) (img : ImageOps.ImageData) (s : ℚ)
    (h : s ≤ 1/10) : ImageOps.applyGaussianBlur mexp img s = img := by
  unfold ImageOps.applyGaussianBlur
  rw [if_pos h]

/-- Identity guard of applySaturation at zero percent. -/
theorem applySaturation_zeroPct (img : ImageOps.ImageData) :
    ImageOps.applySaturation img 0 = img := by
  unfold ImageOps.applySaturation
  rw [if_pos rfl]

/-- toByte is the identity on byte-valued integers. -/
theorem toByte_natCast (v : ℕ) (h : v ≤ 255) : ImageOps.toByte (v : ℚ) = v := by
  unfold ImageOps.toByte
  by_cases h0 : (v : ℚ) ≤ 0
  · have hv : v = 0 := by exact_mod_cast le_antisymm h0 (by positivity)
    rw [if_pos h0, hv]
  · rw [if_neg h0]
    by_cases h255 : (255 : ℚ) ≤ (v : ℚ)
    · have hv : v = 255 := le_antisymm h (by exact_mod_cast h255)
      rw [if_pos h255, hv]
    · rw [if_neg h255]
      unfold ImageOps.roundHalfEven
      rw [Int.floor_natCast]
      rw [if_pos (by push_cast; norm_num)]
      exact Int.toNat_natCast v

/-- toByte of a value strictly between k and k plus one half is k. -/
theorem toByte_between (q : ℚ) (k : ℕ) (h0 : 0 < q) (h255 : q < 255)
    (hlo : (k : ℚ) ≤ q) (hhi : q < (k : ℚ) + 1/2) : ImageOps.toByte q = k := by
  unfold ImageOps.toByte
  rw [if_neg (by linarith), if_neg (by linarith)]
  have hfl : ⌊q⌋ = (k : ℤ) := by
    apply Int.floor_eq_iff.mpr
    constructor
    · exact_mod_cast hlo
    · push_cast
      linarith
  unfold ImageOps.roundHalfEven
  rw [hfl]
  rw [if_pos (by push_cast; linarith)]
  exact Int.toNat_natCast k

/-- toByte of a value strictly between k plus one half and k plus one
rounds up to k plus one. -/
theorem toByte_between_up (q : ℚ) (k : ℕ) (_h0 : 0 < q) (h255 : q < 255)
    (hlo : (k : ℚ) + 1/2 < q) (hhi : q < (k : ℚ) + 1) : ImageOps.toByte q = k + 1 := by
  unfold ImageOps.toByte
  rw [if_neg (by linarith), if_neg (by linarith)]
  have hfl : ⌊q⌋ = (k : ℤ) := by
    apply Int.floor_eq_iff.mpr
    constructor
    · push_cast
      linarith
    · push_cast
      linarith
  unfold ImageOps.roundHalfEven
  rw [hfl]
  rw [if_neg (by push_cast; linarith), if_pos (by push_cast; linarith)]
  exact_mod_cast Int.toNat_natCast (k + 1)

/-- XNum computation chain of applyBrightnessContrast collapses to plain
rational arithmetic when the contrast factor is finite. -/
theorem XNum.chain_fin (fq b v : ℚ) :
    ImageOps.XNum.toByteX (ImageOps.XNum.clampX
      (ImageOps.XNum.add (ImageOps.XNum.add
        (ImageOps.XNum.mul (ImageOps.XNum.fin fq) (ImageOps.XNum.fin v))
        (ImageOps.XNum.fin 128)) (ImageOps.XNum.fin b))
      (ImageOps.XNum.fin 0) (ImageOps.XNum.fin 255)) =
    ImageOps.toByte (ImageOps.clamp (fq * v + 128 + b) 0 255) := by
  show ImageOps.XNum.toByteX (ImageOps.XNum.clampX (ImageOps.XNum.fin (fq * v + 128 + b))
    (ImageOps.XNum.fin 0) (ImageOps.XNum.fin 255)) = _
  unfold ImageOps.XNum.clampX ImageOps.XNum.lt ImageOps.clamp
  split_ifs with h1 h2 <;> simp_all [ImageOps.XNum.toByteX]

/-- applyBrightnessContrast with a nonsingular contrast parameter, written
as plain rational arithmetic per channel. -/
theorem applyBrightnessContrast_fin (img : ImageOps.ImageData) (bp cp : ℚ)
    (hden : 255 * (1 - cp / 100) ≠ 0) :
    ImageOps.applyBrightnessContrast img bp cp =
      ⟨img.width, img.height, img.data.map (fun p =>
        ⟨ImageOps.toByte (ImageOps.clamp
            ((259 * (cp/100 + 1)) / (255 * (1 - cp/100)) * ((p.r : ℚ) - 128) + 128 + bp/100*255) 0 255),
         ImageOps.toByte (ImageOps.clamp
            ((259 * (cp/100 + 1)) / (255 * (1 - cp/100)) * ((p.g : ℚ) - 128) + 128 + bp/100*255) 0 255),
         ImageOps.toByte (ImageOps.clamp
            ((259 * (cp/100 + 1)) / (255 * (1 - cp/100)) * ((p.b : ℚ) - 128) + 128 + bp/100*255) 0 255),
         p.a⟩)⟩ := by
  unfold ImageOps.applyBrightnessContrast
  dsimp only
  rw [ImageOps.XNum.jsDiv, if_neg hden]
  congr 1
  apply List.map_congr_left
  intro p hp
  rw [XNum.chain_fin, XNum.chain_fin, XNum.chain_fin]

/-- Channel value 64 is mapped to 63 by applyBrightnessContrast at zero
brightness and zero contrast, because the contrast factor is 259/255. -/
theorem bc_zero_chan_64 :
    ImageOps.toByte (ImageOps.clamp
      ((259 * ((0:ℚ)/100 + 1)) / (255 * (1 - (0:ℚ)/100)) * ((((64:ℕ)) : ℚ) - 128) + 128 + (0:ℚ)/100*255)
      0 255) = 63 := by
  have hX : (259 * ((0:ℚ)/100 + 1)) / (255 * (1 - (0:ℚ)/100)) * ((((64:ℕ)) : ℚ) - 128) + 128 + (0:ℚ)/100*255
      = 16064/255 := by
    push_cast
    norm_num
  rw [hX]
  have hcl : ImageOps.clamp ((16064:ℚ)/255) 0 255 = 16064/255 := by
    unfold ImageOps.clamp
    rw [if_neg (by norm_num), if_neg (by norm_num)]
  rw [hcl]
  have h := toByte_between_up (16064/255) 62 (by norm_num) (by norm_num) (by norm_num) (by norm_num)
  simpa using h

/-- Evaluation of applyBrightnessContrast at both percentages zero on the
uniform 64 one-pixel image: the result is the uniform 63 image. -/
theorem bc_zero_on_64 :
    ImageOps.applyBrightnessContrast ⟨1, 1, [⟨64, 64, 64, 255⟩]⟩ 0 0 =
      ⟨1, 1, [⟨63, 63, 63, 255⟩]⟩ := by
  rw [applyBrightnessContrast_fin _ _ _ (by norm_num)]
  simp only [List.map_cons, List.map_nil]
  rw [bc_zero_chan_64]

/-- C1 (counterexample): applyBrightnessContrast with brightnessPct = 0 and
contrastPct = 0 does not return the input unchanged: on the one-pixel
image with all channels 64 it produces 63, because the contrast factor at
zero contrast is 259/255, not 1. -/
theorem C1_bc_zero_not_identity :
    ImageOps.applyBrightnessContrast ⟨1, 1, [⟨64, 64, 64, 255⟩]⟩ 0 0 ≠
      ⟨1, 1, [⟨64, 64, 64, 255⟩]⟩ := by
  rw [bc_zero_on_64]
  intro h
  have hdata := congrArg ImageOps.ImageData.data h
  simp at hdata

/-- C1 (amended): the stages with a disabled parameter value that have an
early-return guard are identities: applyGaussianNoise with sigma at most 0,
applyGaussianBlur with sigmaPx at most 1/10, and applySaturation with
saturationPct = 0 each return the input unchanged; applyBrightnessContrast
with brightnessPct = 0 and contrastPct = 0 is not the identity (it maps
the all-64 pixel to all-63). -/
theorem C1_disabled_stage_identities :
    (∀ (g : ℕ → ℚ) (img : ImageOps.ImageData) (sigma : ℚ), sigma ≤ 0 →
      ImageOps.applyGaussianNoise g img sigma = img) ∧
    (∀ (mexp : ℚ → ℚ) (img : ImageOps.ImageData) (sigmaPx : ℚ), sigmaPx ≤ 1/10 →
      ImageOps.applyGaussianBlur mexp img sigmaPx = img) ∧
    (∀ img : ImageOps.ImageData, ImageOps.applySaturation img 0 = img) ∧
    ImageOps.applyBrightnessContrast ⟨1, 1, [⟨64, 64, 64, 255⟩]⟩ 0 0 =
      ⟨1, 1, [⟨63, 63, 63, 255⟩]⟩ :=
  ⟨fun g img sigma h => applyGaussianNoise_nonpos g img sigma h,
   fun mexp img s h => applyGaussianBlur_smallSigma mexp img s h,
   fun img => applySaturation_zeroPct img,
   bc_zero_on_64⟩

/-- C1 (witness): the guard identities applied at concrete disabled
parameters sigma = 0 and sigmaPx = 1/10 on a concrete one-pixel image. -/
theorem C1_disabled_stage_identities_witness :
    ImageOps.applyGaussianNoise (fun _ => 0) ⟨1, 1, [⟨5, 6, 7, 8⟩]⟩ 0 = ⟨1, 1, [⟨5, 6, 7, 8⟩]⟩ ∧
    ImageOps.applyGaussianBlur (fun _ => 1) ⟨1, 1, [⟨5, 6, 7, 8⟩]⟩ (1/10) = ⟨1, 1, [⟨5, 6, 7, 8⟩]⟩ ∧
    ImageOps.applySaturation ⟨1, 1, [⟨5, 6, 7, 8⟩]⟩ 0 = ⟨1, 1, [⟨5, 6, 7, 8⟩]⟩ :=
  ⟨C1_disabled_stage_identities.1 (fun _ => 0) ⟨1, 1, [⟨5, 6, 7, 8⟩]⟩ 0 le_rfl,
   C1_disabled_stage_identities.2.1 (fun _ => 1) ⟨1, 1, [⟨5, 6, 7, 8⟩]⟩ (1/10) le_rfl,
   C1_disabled_stage_identities.2.2.1 ⟨1, 1, [⟨5, 6, 7, 8⟩]⟩⟩

/-- C9: with every adjustment at its default off value (autoWhiteBalance
false, noiseSigma at most 0, brightness, contrast and saturation 0, and
blurPx at most 1/10), applyPipeline returns the input buffer itself;
blurPx strictly between 0 and 1/10 passes the orchestrator's guard but is
still skipped by applyGaussianBlur's own early return. -/
theorem C9_pipeline_defaults_identity :
    ∀ (mexp : ℚ → ℚ) (g : ℕ → ℚ) (img : ImageOps.ImageData) (adj : ImageOps.Adjustments),
      adj.autoWhiteBalance = false → adj.noiseSigma ≤ 0 → adj.brightness = 0 →
      adj.contrast = 0 → adj.saturation = 0 → adj.blurPx ≤ 1/10 →
      ImageOps.applyPipeline mexp g img adj = img := by
  intro mexp g img adj hawb hns hb hc hs hbl
  have hnoise : ¬ (0 < adj.noiseSigma) := not_lt.mpr hns
  have hbc : ¬ (adj.brightness ≠ 0 ∨ adj.contrast ≠ 0) := by simp [hb, hc]
  have hsat : ¬ (adj.saturation ≠ 0) := by simp [hs]
  simp only [ImageOps.applyPipeline, hawb, Bool.false_eq_true, if_false,
    if_neg hnoise, if_neg hbc, if_neg hsat]
  by_cases hbp : 0 < adj.blurPx
  · rw [if_pos hbp, applyGaussianBlur_smallSigma _ _ _ hbl]
  · rw [if_neg hbp]

/-- C9 (witness): the pipeline at all-default adjustments (with blurPx
exactly 1/10, inside the orchestrator's blur guard but inside the blur
stage's own skip) on a concrete one-pixel image. -/
theorem C9_pipeline_defaults_identity_witness :
    ImageOps.applyPipeline (fun _ => 1) (fun _ => 0) ⟨1, 1, [⟨1, 2, 3, 4⟩]⟩
      ⟨false, 0, 1/10, 0, 0, 0⟩ = ⟨1, 1, [⟨1, 2, 3, 4⟩]⟩ :=
  C9_pipeline_defaults_identity (fun _ => 1) (fun _ => 0) ⟨1, 1, [⟨1, 2, 3, 4⟩]⟩
    ⟨false, 0, 1/10, 0, 0, 0⟩ rfl le_rfl rfl rfl rfl le_rfl

/-- Bounds of lowHigh always come out strictly ordered: either the
descending bound exceeded the ascending one, or the fallback produced
the full range 0 to 255. -/
theorem lowHigh_fst_lt_snd (hst : ℕ → ℕ) (clipN : ℕ) :
    (ImageOps.lowHigh hst clipN).1 < (ImageOps.lowHigh hst clipN).2 := by
  unfold ImageOps.lowHigh
  dsimp only
  split
  · decide
  · next h => omega

/-- lutRange loses its falsy-zero guard whenever the bounds are strictly
ordered. -/
theorem lutRange_of_lt (lo hi : ℕ) (h : lo < hi) :
    ImageOps.lutRange lo hi = (hi : ℚ) - (lo : ℚ) := by
  unfold ImageOps.lutRange
  rw [if_neg]
  have hq : (lo : ℚ) < (hi : ℚ) := by exact_mod_cast h
  intro hzero
  nlinarith

/-- C10: the bounds produced by lowHigh always satisfy high - low at least
one after the fallback, so the LUT divisor is the plain difference (the
falsy-zero guard in makeLut is unreachable) and makeLut equals the
guard-free linear remap. -/
theorem C10_lowHigh_guard_unreachable :
    ∀ (hst : ℕ → ℕ) (clipN : ℕ),
      (ImageOps.lowHigh hst clipN).1 + 1 ≤ (ImageOps.lowHigh hst clipN).2 ∧
      ImageOps.lutRange (ImageOps.lowHigh hst clipN).1 (ImageOps.lowHigh hst clipN).2 =
        ((ImageOps.lowHigh hst clipN).2 : ℚ) - ((ImageOps.lowHigh hst clipN).1 : ℚ) ∧
      ImageOps.makeLut (ImageOps.lowHigh hst clipN).1 (ImageOps.lowHigh hst clipN).2 =
        fun (v : ℕ) => ImageOps.toByte (ImageOps.clamp
          (((v : ℚ) - ((ImageOps.lowHigh hst clipN).1 : ℚ)) /
            (((ImageOps.lowHigh hst clipN).2 : ℚ) - ((ImageOps.lowHigh hst clipN).1 : ℚ)) * 255)
          0 255) := by
  intro hst clipN
  have hlt := lowHigh_fst_lt_snd hst clipN
  have hrange := lutRange_of_lt _ _ hlt
  refine ⟨by omega, hrange, ?_⟩
  funext v
  unfold ImageOps.makeLut
  rw [hrange]

/-- applyAutoWhiteBalance keeps the declared width. -/
theorem applyAutoWhiteBalance_width (img : ImageOps.ImageData) (c : ℚ) :
    (ImageOps.applyAutoWhiteBalance img c).width = img.width := by
  unfold ImageOps.applyAutoWhiteBalance
  split <;> rfl

/-- applyAutoWhiteBalance keeps the declared height. -/
theorem applyAutoWhiteBalance_height (img : ImageOps.ImageData) (c : ℚ) :
    (ImageOps.applyAutoWhiteBalance img c).height = img.height := by
  unfold ImageOps.applyAutoWhiteBalance
  split <;> rfl

/-- applyGaussianNoise keeps the declared width. -/
theorem applyGaussianNoise_width (g : ℕ → ℚ) (img : ImageOps.ImageData) (s : ℚ) :
    (ImageOps.applyGaussianNoise g img s).width = img.width := by
  unfold ImageOps.applyGaussianNoise
  split <;> rfl

/-- applyGaussianNoise keeps the declared height. -/
theorem applyGaussianNoise_height (g : ℕ → ℚ) (img : ImageOps.ImageData) (s : ℚ) :
    (ImageOps.applyGaussianNoise g img s).height = img.height := by
  unfold ImageOps.applyGaussianNoise
  split <;> rfl

/-- applyBrightnessContrast keeps the declared width. -/
theorem applyBrightnessContrast_width (img : ImageOps.ImageData) (bp cp : ℚ) :
    (ImageOps.applyBrightnessContrast img bp cp).width = img.width := rfl

/-- applyBrightnessContrast keeps the declared height. -/
theorem applyBrightnessContrast_height (img : ImageOps.ImageData) (bp cp : ℚ) :
    (ImageOps.applyBrightnessContrast img bp cp).height = img.height := rfl

/-- applySaturation keeps the declared width. -/
theorem applySaturation_width (img : ImageOps.ImageData) (sp : ℚ) :
    (ImageOps.applySaturation img sp).width = img.width := by
  unfold ImageOps.applySaturation
  split <;> rfl

/-- applySaturation keeps the declared height. -/
theorem applySaturation_height (img : ImageOps.ImageData) (sp : ℚ) :
    (ImageOps.applySaturation img sp).height = img.height := by
  unfold ImageOps.applySaturation
  split <;> rfl

/-- applyGaussianBlur keeps the declared width. -/
theorem applyGaussianBlur_width (mexp : ℚ → ℚ) (img : ImageOps.ImageData) (s : ℚ) :
    (ImageOps.applyGaussianBlur mexp img s).width = img.width := by
  unfold ImageOps.applyGaussianBlur
  split <;> rfl

/-- applyGaussianBlur keeps the declared height. -/
theorem applyGaussianBlur_height (mexp : ℚ → ℚ) (img : ImageOps.ImageData) (s : ℚ) :
    (ImageOps.applyGaussianBlur mexp img s).height = img.height := by
  unfold ImageOps.applyGaussianBlur
  split <;> rfl

/-- applyPipeline keeps the declared width. -/
theorem applyPipeline_width (mexp : ℚ → ℚ) (g : ℕ → ℚ) (img : ImageOps.ImageData)
    (adj : ImageOps.Adjustments) : (ImageOps.applyPipeline mexp g img adj).width = img.width := by
  unfold ImageOps.applyPipeline
  dsimp only
  split <;> split <;> split <;> split <;> split <;>
    simp [applyAutoWhiteBalance_width, applyGaussianNoise_width, applyBrightnessContrast_width,
      applySaturation_width, applyGaussianBlur_width]

/-- applyPipeline keeps the declared height. -/
theorem applyPipeline_height (mexp : ℚ → ℚ) (g : ℕ → ℚ) (img : ImageOps.ImageData)
    (adj : ImageOps.Adjustments) : (ImageOps.applyPipeline mexp g img adj).height = img.height := by
  unfold ImageOps.applyPipeline
  dsimp only
  split <;> split <;> split <;> split <;> split <;>
    simp [applyAutoWhiteBalance_height, applyGaussianNoise_height, applyBrightnessContrast_height,
      applySaturation_height, applyGaussianBlur_height]

/-- C2: the pipeline orchestrator and every individual stage return a
buffer with the input's width and height, for every input and every
parameter value. -/
theorem C2_dimensions_preserved :
    ∀ (mexp : ℚ → ℚ) (g : ℕ → ℚ) (img : ImageOps.ImageData) (adj : ImageOps.Adjustments)
      (clipPct sigma bp cp sp sx : ℚ),
      ((ImageOps.applyPipeline mexp g img adj).width = img.width ∧
        (ImageOps.applyPipeline mexp g img adj).height = img.height) ∧
      ((ImageOps.applyAutoWhiteBalance img clipPct).width = img.width ∧
        (ImageOps.applyAutoWhiteBalance img clipPct).height = img.height) ∧
      ((ImageOps.applyGaussianNoise g img sigma).width = img.width ∧
        (ImageOps.applyGaussianNoise g img sigma).height = img.height) ∧
      ((ImageOps.applyBrightnessContrast img bp cp).width = img.width ∧
        (ImageOps.applyBrightnessContrast img bp cp).height = img.height) ∧
      ((ImageOps.applySaturation img sp).width = img.width ∧
        (ImageOps.applySaturation img sp).height = img.height) ∧
      ((ImageOps.applyGaussianBlur mexp img sx).width = img.width ∧
        (ImageOps.applyGaussianBlur mexp img sx).height = img.height) :=
  fun mexp g img adj clipPct sigma bp cp sp sx =>
    ⟨⟨applyPipeline_width mexp g img adj, applyPipeline_height mexp g img adj⟩,
     ⟨applyAutoWhiteBalance_width img clipPct, applyAutoWhiteBalance_height img clipPct⟩,
     ⟨applyGaussianNoise_width g img sigma, applyGaussianNoise_height g img sigma⟩,
     ⟨applyBrightnessContrast_width img bp cp, applyBrightnessContrast_height img bp cp⟩,
     ⟨applySaturation_width img sp, applySaturation_height img sp⟩,
     ⟨applyGaussianBlur_width mexp img sx, applyGaussianBlur_height mexp img sx⟩⟩

/-- noiseMap keeps every pixel's alpha, whatever the deviates are. -/
theorem noiseMap_map_a (g : ℕ → ℚ) (l : List ImageOps.Pixel) :
    ∀ i : ℕ, (ImageOps.noiseMap g i l).map ImageOps.Pixel.a = l.map ImageOps.Pixel.a := by
  induction l with
  | nil => intro i; rfl
  | cons p t ih =>
      intro i
      simp only [ImageOps.noiseMap, List.map_cons, ih (i + 1)]

/-- C4: applyAutoWhiteBalance, applyGaussianNoise (any sigma),
applyBrightnessContrast and applySaturation leave the alpha channel of
every pixel unchanged, for every input and every parameter value. -/
theorem C4_alpha_unchanged :
    ∀ (g : ℕ → ℚ) (img : ImageOps.ImageData) (clipPct sigma bp cp sp : ℚ),
      (ImageOps.applyAutoWhiteBalance img clipPct).data.map ImageOps.Pixel.a =
        img.data.map ImageOps.Pixel.a ∧
      (ImageOps.applyGaussianNoise g img sigma).data.map ImageOps.Pixel.a =
        img.data.map ImageOps.Pixel.a ∧
      (ImageOps.applyBrightnessContrast img bp cp).data.map ImageOps.Pixel.a =
        img.data.map ImageOps.Pixel.a ∧
      (ImageOps.applySaturation img sp).data.map ImageOps.Pixel.a =
        img.data.map ImageOps.Pixel.a := by
  intro g img clipPct sigma bp cp sp
  refine ⟨?_, ?_, ?_, ?_⟩
  · unfold ImageOps.applyAutoWhiteBalance
    split
    · rfl
    · dsimp only
      rw [List.map_map]
      exact List.map_congr_left fun p _ => rfl
  · unfold ImageOps.applyGaussianNoise
    split
    · rfl
    · exact noiseMap_map_a g img.data 0
  · unfold ImageOps.applyBrightnessContrast
    dsimp only
    rw [List.map_map]
    exact List.map_congr_left fun p _ => rfl
  · unfold ImageOps.applySaturation
    split
    · rfl
    · dsimp only
      rw [List.map_map]
      exact List.map_congr_left fun p _ => rfl

/-- Multiplying positive Infinity by a finite value follows the sign,
with NaN at zero. -/
theorem XNum.mul_pinf_fin (a : ℚ) :
    ImageOps.XNum.mul ImageOps.XNum.pinf (ImageOps.XNum.fin a) =
      if 0 < a then ImageOps.XNum.pinf else if a < 0 then ImageOps.XNum.ninf
      else ImageOps.XNum.nan := rfl

/-- Positive Infinity plus a finite value stays positive Infinity. -/
theorem XNum.add_pinf_fin (b : ℚ) :
    ImageOps.XNum.add ImageOps.XNum.pinf (ImageOps.XNum.fin b) = ImageOps.XNum.pinf := rfl

/-- Negative Infinity plus a finite value stays negative Infinity. -/
theorem XNum.add_ninf_fin (b : ℚ) :
    ImageOps.XNum.add ImageOps.XNum.ninf (ImageOps.XNum.fin b) = ImageOps.XNum.ninf := rfl

/-- NaN absorbs addition. -/
theorem XNum.add_nan_left (x : ImageOps.XNum) :
    ImageOps.XNum.add ImageOps.XNum.nan x = ImageOps.XNum.nan := by
  cases x <;> rfl

/-- The source's clamp maps positive Infinity to the upper bound. -/
theorem XNum.clampX_pinf :
    ImageOps.XNum.clampX ImageOps.XNum.pinf (ImageOps.XNum.fin 0) (ImageOps.XNum.fin 255) =
      ImageOps.XNum.fin 255 := rfl

/-- The source's clamp maps negative Infinity to the lower bound. -/
theorem XNum.clampX_ninf :
    ImageOps.XNum.clampX ImageOps.XNum.ninf (ImageOps.XNum.fin 0) (ImageOps.XNum.fin 255) =
      ImageOps.XNum.fin 0 := rfl

/-- The source's clamp passes NaN through, both comparisons being false. -/
theorem XNum.clampX_nan :
    ImageOps.XNum.clampX ImageOps.XNum.nan (ImageOps.XNum.fin 0) (ImageOps.XNum.fin 255) =
      ImageOps.XNum.nan := rfl

/-- toByte of the literal 255. -/
theorem toByte_255 : ImageOps.toByte 255 = 255 := by
  unfold ImageOps.toByte
  rw [if_neg (by norm_num), if_pos le_rfl]

/-- toByte of the literal 0. -/
theorem toByte_zero : ImageOps.toByte 0 = 0 := by
  unfold ImageOps.toByte
  rw [if_pos le_rfl]

/-- Channel computation of applyBrightnessContrast when the contrast
factor is positive Infinity: channels above 128 saturate to 255, channels
below produce negative Infinity clamped to 0, and channel 128 produces
NaN stored as 0, for every brightness term. -/
theorem bc_chan_singular (bp' : ℚ) (v : ℕ) :
    ImageOps.XNum.toByteX (ImageOps.XNum.clampX
      (ImageOps.XNum.add (ImageOps.XNum.add
        (ImageOps.XNum.mul ImageOps.XNum.pinf (ImageOps.XNum.fin ((v : ℚ) - 128)))
        (ImageOps.XNum.fin 128)) (ImageOps.XNum.fin bp'))
      (ImageOps.XNum.fin 0) (ImageOps.XNum.fin 255)) =
    if 128 < v then 255 else 0 := by
  by_cases h : 128 < v
  · have hpos : (0 : ℚ) < (v : ℚ) - 128 := by
      have : (128 : ℚ) < (v : ℚ) := by exact_mod_cast h
      linarith
    rw [if_pos h, XNum.mul_pinf_fin, if_pos hpos, XNum.add_pinf_fin, XNum.add_pinf_fin,
      XNum.clampX_pinf]
    exact toByte_255
  · rw [if_neg h]
    rcases Nat.lt_or_ge v 128 with hlt | hge
    · have hneg : (v : ℚ) - 128 < 0 := by
        have : (v : ℚ) < (128 : ℚ) := by exact_mod_cast hlt
        linarith
      rw [XNum.mul_pinf_fin, if_neg (by linarith), if_pos hneg, XNum.add_ninf_fin,
        XNum.add_ninf_fin, XNum.clampX_ninf]
      exact toByte_zero
    · have hv : v = 128 := by omega
      subst hv
      have hz : ((128 : ℕ) : ℚ) - 128 = 0 := by norm_num
      rw [XNum.mul_pinf_fin, hz, if_neg (lt_irrefl (0 : ℚ)), if_neg (lt_irrefl (0 : ℚ)),
        XNum.add_nan_left, XNum.add_nan_left, XNum.clampX_nan]
      rfl

/-- applyBrightnessContrast at contrastPct = 100: the factor is positive
Infinity and every output channel is 255 above the midpoint and 0 at or
below it, independently of the brightness percentage. -/
theorem applyBrightnessContrast_singular (img : ImageOps.ImageData) (bp : ℚ) :
    ImageOps.applyBrightnessContrast img bp 100 =
      ⟨img.width, img.height, img.data.map (fun p =>
        ⟨if 128 < p.r then 255 else 0, if 128 < p.g then 255 else 0,
         if 128 < p.b then 255 else 0, p.a⟩)⟩ := by
  unfold ImageOps.applyBrightnessContrast
  dsimp only
  have hf : ImageOps.XNum.jsDiv (259 * ((100 : ℚ)/100 + 1)) (255 * (1 - (100 : ℚ)/100)) =
      ImageOps.XNum.pinf := by
    unfold ImageOps.XNum.jsDiv
    rw [if_pos (by norm_num), if_pos (by norm_num)]
  rw [hf]
  congr 1
  apply List.map_congr_left
  intro p hp
  rw [bc_chan_singular, bc_chan_singular, bc_chan_singular]

/-- C3: at contrastPct = 100 (the singularity c = 1), the intermediate
contrast factor is positive Infinity but every stored output channel is a
byte: 255 above the midpoint and 0 otherwise (NaN at channel 128 stores
as 0), so the output is always a finite value between 0 and 255. -/
theorem C3_contrast_singularity_clamped :
    ∀ (img : ImageOps.ImageData) (bp : ℚ),
      (ImageOps.applyBrightnessContrast img bp 100).data = img.data.map (fun p =>
        ⟨if 128 < p.r then 255 else 0, if 128 < p.g then 255 else 0,
         if 128 < p.b then 255 else 0, p.a⟩) ∧
      ((ImageOps.applyBrightnessContrast img bp 100).data.all
        (fun p => decide (p.r ≤ 255) && decide (p.g ≤ 255) && decide (p.b ≤ 255))) = true := by
  intro img bp
  have h := applyBrightnessContrast_singular img bp
  have hdata : (ImageOps.applyBrightnessContrast img bp 100).data = img.data.map (fun p =>
      (⟨if 128 < p.r then 255 else 0, if 128 < p.g then 255 else 0,
        if 128 < p.b then 255 else 0, p.a⟩ : ImageOps.Pixel)) := by
    rw [h]
  refine ⟨hdata, ?_⟩
  rw [hdata, List.all_eq_true]
  intro x hx
  rw [List.mem_map] at hx
  obtain ⟨p, hp, rfl⟩ := hx
  simp only [Bool.and_eq_true, decide_eq_true_eq]
  refine ⟨⟨?_, ?_⟩, ?_⟩ <;> split <;> omega

/-- Channel value 100 under brightness 50 percent and contrast 0 maps to
227: the computed value is 115801/510, strictly between 227 and 227.5. -/
theorem bc_chan_b50_100 :
    ImageOps.toByte (ImageOps.clamp
      ((259 * ((0:ℚ)/100 + 1)) / (255 * (1 - (0:ℚ)/100)) * ((((100:ℕ)) : ℚ) - 128) + 128 + (50:ℚ)/100*255)
      0 255) = 227 := by
  have hX : (259 * ((0:ℚ)/100 + 1)) / (255 * (1 - (0:ℚ)/100)) * ((((100:ℕ)) : ℚ) - 128) + 128 + (50:ℚ)/100*255
      = 115801/510 := by
    push_cast
    norm_num
  rw [hX]
  have hcl : ImageOps.clamp ((115801:ℚ)/510) 0 255 = 115801/510 := by
    unfold ImageOps.clamp
    rw [if_neg (by norm_num), if_neg (by norm_num)]
  rw [hcl]
  exact toByte_between (115801/510) 227 (by norm_num) (by norm_num) (by norm_num) (by norm_num)

/-- C6: on the 2 by 2 image of pixels (100, 100, 100, 255), brightnessPct
50 and contrastPct 0 produce 227 on every color channel (the computed
value 227.06 rounds to 227 under the Uint8ClampedArray store) and alpha
stays 255. -/
theorem C6_brightness_scenario :
    ImageOps.applyBrightnessContrast ⟨2, 2, List.replicate 4 ⟨100, 100, 100, 255⟩⟩ 50 0 =
      ⟨2, 2, List.replicate 4 ⟨227, 227, 227, 255⟩⟩ := by
  rw [applyBrightnessContrast_fin _ _ _ (by norm_num)]
  simp only [List.map_replicate]
  rw [bc_chan_b50_100]

/-- Extensionality for the buffer record. -/
theorem ImageData_ext (x y : ImageOps.ImageData) (hw : x.width = y.width)
    (hh : x.height = y.height) (hd : x.data = y.data) : x = y := by
  cases x
  cases y
  simp only [ImageOps.ImageData.mk.injEq]
  exact ⟨hw, hh, hd⟩

/-- Lightness returned by rgbToHsl is the midpoint of the normalized
channel extremes, in both the achromatic and the chromatic branch. -/
theorem rgbToHsl_l (r0 g0 b0 : ℚ) :
    (ImageOps.rgbToHsl r0 g0 b0).2.2 =
      (max (r0/255) (max (g0/255) (b0/255)) + min (r0/255) (min (g0/255) (b0/255))) / 2 := by
  unfold ImageOps.rgbToHsl
  dsimp only
  split <;> rfl

/-- rgbToHsl lightness lies in the unit interval on byte-valued inputs. -/
theorem rgbToHsl_l_bounds (r g b : ℕ) (hr : r ≤ 255) (hg : g ≤ 255) (hb : b ≤ 255) :
    0 ≤ (ImageOps.rgbToHsl (r : ℚ) (g : ℚ) (b : ℚ)).2.2 ∧
      (ImageOps.rgbToHsl (r : ℚ) (g : ℚ) (b : ℚ)).2.2 ≤ 1 := by
  rw [rgbToHsl_l]
  have h1 : (0:ℚ) ≤ (r:ℚ)/255 := by positivity
  have h2 : (0:ℚ) ≤ (g:ℚ)/255 := by positivity
  have h3 : (0:ℚ) ≤ (b:ℚ)/255 := by positivity
  have u1 : (r:ℚ)/255 ≤ 1 := by
    rw [div_le_one (by norm_num)]
    exact_mod_cast hr
  have u2 : (g:ℚ)/255 ≤ 1 := by
    rw [div_le_one (by norm_num)]
    exact_mod_cast hg
  have u3 : (b:ℚ)/255 ≤ 1 := by
    rw [div_le_one (by norm_num)]
    exact_mod_cast hb
  have hmx : max ((r:ℚ)/255) (max ((g:ℚ)/255) ((b:ℚ)/255)) ≤ 1 := max_le u1 (max_le u2 u3)
  have hmx0 : (0:ℚ) ≤ max ((r:ℚ)/255) (max ((g:ℚ)/255) ((b:ℚ)/255)) :=
    le_trans h1 (le_max_left _ _)
  have hmn : (0:ℚ) ≤ min ((r:ℚ)/255) (min ((g:ℚ)/255) ((b:ℚ)/255)) := le_min h1 (le_min h2 h3)
  have hmn1 : min ((r:ℚ)/255) (min ((g:ℚ)/255) ((b:ℚ)/255)) ≤ 1 :=
    le_trans (min_le_left _ _) u1
  constructor <;> linarith

/-- hslToRgb at zero saturation returns the lightness on all channels. -/
theorem hslToRgb_s0 (h l : ℚ) : ImageOps.hslToRgb h 0 l = (l * 255, l * 255, l * 255) := by
  unfold ImageOps.hslToRgb
  rw [if_pos rfl]

/-- clamp is the identity inside its bounds. -/
theorem clamp_id (q : ℚ) (h0 : 0 ≤ q) (h255 : q ≤ 255) : ImageOps.clamp q 0 255 = q := by
  unfold ImageOps.clamp
  rw [if_neg (not_lt.mpr h0), if_neg (not_lt.mpr h255)]

/-- roundHalfEven is the identity on integers cast from naturals. -/
theorem roundHalfEven_natCast (k : ℕ) : ImageOps.roundHalfEven (k : ℚ) = k := by
  unfold ImageOps.roundHalfEven
  rw [Int.floor_natCast]
  rw [if_pos (by push_cast; norm_num)]

/-- Inside the byte range, toByte is plain round-half-even. -/
theorem toByte_eq_roundHalfEven (q : ℚ) (h0 : 0 ≤ q) (h255 : q ≤ 255) :
    ImageOps.toByte q = (ImageOps.roundHalfEven q).toNat := by
  unfold ImageOps.toByte
  by_cases hq : q ≤ 0
  · have hz : q = 0 := le_antisymm hq h0
    subst hz
    rw [if_pos le_rfl]
    rw [show ImageOps.roundHalfEven 0 = ((0:ℕ) : ℤ) from by
      rw [show ((0:ℚ)) = (((0:ℕ)) : ℚ) from by norm_num, roundHalfEven_natCast]]
    rfl
  · rw [if_neg hq]
    by_cases h2 : 255 ≤ q
    · have hz : q = 255 := le_antisymm h255 h2
      subst hz
      rw [if_pos le_rfl]
      rw [show ImageOps.roundHalfEven 255 = ((255:ℕ) : ℤ) from by
        rw [show ((255:ℚ)) = (((255:ℕ)) : ℚ) from by norm_num, roundHalfEven_natCast]]
      rfl
    · rw [if_neg h2]

/-- The scaled-saturation expression at factor 0 collapses to 0. -/
theorem satScale_zero (s : ℚ) : (0 : ℚ) ⊔ (1 ⊓ (s * 0)) = 0 := by
  rw [mul_zero, min_eq_right (by norm_num : (0:ℚ) ≤ 1), max_self]

/-- C8: applySaturation at saturationPct = -100 (factor 0) makes every
pixel achromatic: all three color channels become the round-half-even of
the pixel's HSL lightness scaled by 255 and alpha is kept; on the 1 by 1
image (10, 200, 10, 255) the lightness is 7/17 and all channels become
105 with alpha 255. -/
theorem C8_desaturate_achromatic :
    (∀ img : ImageOps.ImageData, (∀ p ∈ img.data, p.r ≤ 255 ∧ p.g ≤ 255 ∧ p.b ≤ 255) →
      (ImageOps.applySaturation img (-100)).data = img.data.map (fun p =>
        ⟨(ImageOps.roundHalfEven ((ImageOps.rgbToHsl (p.r : ℚ) (p.g : ℚ) (p.b : ℚ)).2.2 * 255)).toNat,
         (ImageOps.roundHalfEven ((ImageOps.rgbToHsl (p.r : ℚ) (p.g : ℚ) (p.b : ℚ)).2.2 * 255)).toNat,
         (ImageOps.roundHalfEven ((ImageOps.rgbToHsl (p.r : ℚ) (p.g : ℚ) (p.b : ℚ)).2.2 * 255)).toNat,
         p.a⟩)) ∧
    ImageOps.applySaturation ⟨1, 1, [⟨10, 200, 10, 255⟩]⟩ (-100) =
      ⟨1, 1, [⟨105, 105, 105, 255⟩]⟩ := by
  have hgen : ∀ img : ImageOps.ImageData, (∀ p ∈ img.data, p.r ≤ 255 ∧ p.g ≤ 255 ∧ p.b ≤ 255) →
      (ImageOps.applySaturation img (-100)).data = img.data.map (fun p =>
        ⟨(ImageOps.roundHalfEven ((ImageOps.rgbToHsl (p.r : ℚ) (p.g : ℚ) (p.b : ℚ)).2.2 * 255)).toNat,
         (ImageOps.roundHalfEven ((ImageOps.rgbToHsl (p.r : ℚ) (p.g : ℚ) (p.b : ℚ)).2.2 * 255)).toNat,
         (ImageOps.roundHalfEven ((ImageOps.rgbToHsl (p.r : ℚ) (p.g : ℚ) (p.b : ℚ)).2.2 * 255)).toNat,
         p.a⟩) := by
    intro img hWF
    unfold ImageOps.applySaturation
    rw [if_neg (by norm_num : ¬ ((-100 : ℚ) = 0))]
    dsimp only
    apply List.map_congr_left
    intro p hp
    obtain ⟨hr, hg, hb⟩ := hWF p hp
    rw [show (1 : ℚ) + (-100)/100 = 0 from by norm_num]
    rw [satScale_zero, hslToRgb_s0]
    dsimp only
    obtain ⟨hl0, hl1⟩ := rgbToHsl_l_bounds p.r p.g p.b hr hg hb
    have hq0 : (0:ℚ) ≤ (ImageOps.rgbToHsl (p.r : ℚ) (p.g : ℚ) (p.b : ℚ)).2.2 * 255 := by
      nlinarith
    have hq255 : (ImageOps.rgbToHsl (p.r : ℚ) (p.g : ℚ) (p.b : ℚ)).2.2 * 255 ≤ 255 := by
      nlinarith
    rw [clamp_id _ hq0 hq255, toByte_eq_roundHalfEven _ hq0 hq255]
  refine ⟨hgen, ?_⟩
  have hd := hgen ⟨1, 1, [⟨10, 200, 10, 255⟩]⟩ (by decide)
  refine ImageData_ext _ _ (applySaturation_width _ _) (applySaturation_height _ _) ?_
  rw [hd]
  simp only [List.map_cons, List.map_nil]
  have hL : (ImageOps.rgbToHsl (((10:ℕ)) : ℚ) (((200:ℕ)) : ℚ) (((10:ℕ)) : ℚ)).2.2 = 7/17 := by
    rw [rgbToHsl_l]
    push_cast
    rw [max_def, max_def, min_def, min_def]
    norm_num
  rw [hL]
  rw [show (7:ℚ)/17 * 255 = ((105:ℕ) : ℚ) from by push_cast; norm_num]
  rw [roundHalfEven_natCast]
  rfl

/-- C8 (witness): the achromatic characterization applied to the concrete
one-pixel image (0, 0, 254, 3). -/
theorem C8_desaturate_achromatic_witness :
    (ImageOps.applySaturation ⟨1, 1, [⟨0, 0, 254, 3⟩]⟩ (-100)).data =
      (⟨1, 1, [⟨0, 0, 254, 3⟩]⟩ : ImageOps.ImageData).data.map (fun p =>
        ⟨(ImageOps.roundHalfEven ((ImageOps.rgbToHsl (p.r : ℚ) (p.g : ℚ) (p.b : ℚ)).2.2 * 255)).toNat,
         (ImageOps.roundHalfEven ((ImageOps.rgbToHsl (p.r : ℚ) (p.g : ℚ) (p.b : ℚ)).2.2 * 255)).toNat,
         (ImageOps.roundHalfEven ((ImageOps.rgbToHsl (p.r : ℚ) (p.g : ℚ) (p.b : ℚ)).2.2 * 255)).toNat,
         p.a⟩) :=
  C8_desaturate_achromatic.1 ⟨1, 1, [⟨0, 0, 254, 3⟩]⟩ (by decide)

/-- Histogram of a uniform pixel list: all mass sits in the pixel's bin. -/
theorem hist_replicate (chan : ImageOps.Pixel → ℕ) (n : ℕ) (p : ImageOps.Pixel) :
    ImageOps.hist chan (List.replicate n p) = fun v => if chan p = v then n else 0 := by
  funext v
  by_cases h : chan p = v <;> simp [ImageOps.hist, List.filter_replicate, h]

/-- On a single-bin histogram the ascending scan stops exactly at the
populated bin, as long as the clip count is below the total mass. -/
theorem lowLoop_uniform (n clipN r0 : ℕ) (hcn : clipN < n) :
    ∀ (fuel v : ℕ), v ≤ r0 → r0 < v + fuel →
      ImageOps.lowLoop (fun u => if r0 = u then n else 0) clipN fuel v 0 = r0 := by
  intro fuel
  induction fuel with
  | zero =>
      intro v h1 h2
      omega
  | succ f ih =>
      intro v h1 h2
      simp only [ImageOps.lowLoop]
      by_cases hv : v = r0
      · subst hv
        rw [show (if v = v then n else 0) = n from if_pos rfl]
        rw [if_pos (by omega : clipN < 0 + n)]
      · have h0 : (if r0 = v then n else 0) = 0 := if_neg (by omega)
        rw [h0, if_neg (by omega : ¬ clipN < 0 + 0)]
        have := ih (v + 1) (by omega) (by omega)
        simpa using this

/-- On a single-bin histogram the descending scan stops exactly at the
populated bin, as long as the clip count is below the total mass. -/
theorem highLoop_uniform (n clipN r0 : ℕ) (hcn : clipN < n) :
    ∀ (fuel v : ℕ), r0 ≤ v → v < r0 + fuel →
      ImageOps.highLoop (fun u => if r0 = u then n else 0) clipN fuel v 0 = r0 := by
  intro fuel
  induction fuel with
  | zero =>
      intro v h1 h2
      omega
  | succ f ih =>
      intro v h1 h2
      simp only [ImageOps.highLoop]
      by_cases hv : v = r0
      · subst hv
        rw [show (if v = v then n else 0) = n from if_pos rfl]
        rw [if_pos (by omega : clipN < 0 + n)]
      · have h0 : (if r0 = v then n else 0) = 0 := if_neg (by omega)
        rw [h0, if_neg (by omega : ¬ clipN < 0 + 0)]
        have := ih (v - 1) (by omega) (by omega)
        simpa using this

/-- On a single-bin histogram lowHigh collapses to the degenerate
fallback (0, 255): both scans stop at the same bin. -/
theorem lowHigh_uniform (n clipN r0 : ℕ) (hcn : clipN < n) (hr : r0 ≤ 255) :
    ImageOps.lowHigh (fun u => if r0 = u then n else 0) clipN = (0, 255) := by
  unfold ImageOps.lowHigh
  dsimp only
  rw [lowLoop_uniform n clipN r0 hcn 256 0 (by omega) (by omega),
      highLoop_uniform n clipN r0 hcn 256 255 hr (by omega)]
  rw [if_pos le_rfl]

/-- The LUT for the full range 0 to 255 is the identity on byte values. -/
theorem makeLut_full (v : ℕ) (hv : v ≤ 255) : ImageOps.makeLut 0 255 v = v := by
  unfold ImageOps.makeLut ImageOps.lutRange
  dsimp only
  rw [if_neg (by push_cast; norm_num)]
  have ht : ((v : ℚ) - (((0:ℕ)) : ℚ)) / ((((255:ℕ)) : ℚ) - (((0:ℕ)) : ℚ)) * 255 = (v : ℚ) := by
    push_cast
    field_simp
  rw [ht, clamp_id _ (by positivity) (by exact_mod_cast hv), toByte_natCast v hv]

/-- The clip count of applyAutoWhiteBalance is always below the pixel
count on a non-empty buffer. -/
theorem clipN_lt (n : ℕ) (hn : 0 < n) (z : ℤ) : (max 0 (min ((n : ℤ) - 1) z)).toNat < n := by
  omega

/-- C5: applyAutoWhiteBalance on a uniform image (all pixels identical,
at least one pixel, byte-valued channels) returns the image unchanged:
both percentile scans stop at the single populated bin, the degenerate
fallback widens the range to 0..255, and the resulting LUT is the
identity. -/
theorem C5_autolevel_uniform_identity :
    ∀ (w h : ℕ) (p : ImageOps.Pixel) (clipPct : ℚ), 0 < w * h →
      p.r ≤ 255 → p.g ≤ 255 → p.b ≤ 255 →
      ImageOps.applyAutoWhiteBalance (ImageOps.mkUniform w h p) clipPct =
        ImageOps.mkUniform w h p := by
  intro w h p cp hwh hr hg hb
  unfold ImageOps.mkUniform ImageOps.applyAutoWhiteBalance
  dsimp only
  rw [if_neg (by omega : ¬ (w * h = 0))]
  rw [hist_replicate ImageOps.Pixel.r (w * h) p, hist_replicate ImageOps.Pixel.g (w * h) p,
    hist_replicate ImageOps.Pixel.b (w * h) p]
  have hclip := clipN_lt (w * h) hwh (ImageOps.jsRound (((w * h : ℕ) : ℚ) * cp))
  rw [lowHigh_uniform _ _ _ hclip hr, lowHigh_uniform _ _ _ hclip hg,
    lowHigh_uniform _ _ _ hclip hb]
  dsimp only
  rw [List.map_replicate]
  congr 1
  rw [makeLut_full p.r hr, makeLut_full p.g hg, makeLut_full p.b hb]

/-- C5 (witness): the identity applied to the concrete 1 by 1 uniform
image with pixel (3, 250, 0, 77) and the default clip fraction 1/200. -/
theorem C5_autolevel_uniform_identity_witness :
    ImageOps.applyAutoWhiteBalance (ImageOps.mkUniform 1 1 ⟨3, 250, 0, 77⟩) (1/200) =
      ImageOps.mkUniform 1 1 ⟨3, 250, 0, 77⟩ :=
  C5_autolevel_uniform_identity 1 1 ⟨3, 250, 0, 77⟩ (1/200) (by decide) (by decide)
    (by decide) (by decide)

/-- getD on a replicate list inside bounds returns the replicated value. -/
theorem getD_replicate (n i : ℕ) (a d : ImageOps.Pixel) (h : i < n) :
    (List.replicate n a).getD i d = a := by
  simp [List.getD, List.getElem?_replicate, h]

/-- Dividing every entry of a list by s divides the sum by s. -/
theorem list_sum_map_div (l : List ℚ) (s : ℚ) :
    (l.map (fun v => v / s)).sum = l.sum / s := by
  induction l with
  | nil => simp
  | cons a t ih => simp [ih, add_div]

/-- For sigma above the guard, the normalized Gaussian kernel sums to
exactly 1: each raw weight is positive, so the total is positive and the
normalization divides the sum by itself. -/
theorem makeGaussianKernel_sum (mexp : ℚ → ℚ) (hm : ∀ x, 0 < mexp x) (sigma : ℚ)
    (hs : 1/10 < sigma) : (ImageOps.makeGaussianKernel mexp sigma).1.sum = 1 := by
  unfold ImageOps.makeGaussianKernel
  rw [if_neg (not_le.mpr hs)]
  dsimp only
  rw [list_sum_map_div]
  apply div_self
  apply ne_of_gt
  apply List.sum_pos
  · intro x hx
    rw [List.mem_map] at hx
    obtain ⟨j, hj, rfl⟩ := hx
    exact hm _
  · intro hnil
    have hlen := congrArg List.length hnil
    simp at hlen

/-- The kernel list length always equals twice the radius plus one. -/
theorem makeGaussianKernel_length (mexp : ℚ → ℚ) (sigma : ℚ) :
    (ImageOps.makeGaussianKernel mexp sigma).1.length =
      2 * (ImageOps.makeGaussianKernel mexp sigma).2 + 1 := by
  unfold ImageOps.makeGaussianKernel
  split
  · rfl
  · simp

/-- Summing c times the j-th entry of l over all positions j gives c
times the sum of l. -/
theorem sum_range_getD_mul (c : ℚ) : ∀ (l : List ℚ),
    ((List.range l.length).map (fun j => c * l.getD j 0)).sum = c * l.sum := by
  intro l
  induction l with
  | nil => simp
  | cons a t ih =>
      rw [List.length_cons, List.range_succ_eq_map]
      simp only [List.map_cons, List.map_map, List.sum_cons]
      have hcomp : ((fun j => c * (a :: t).getD j 0) ∘ Nat.succ) = (fun j => c * t.getD j 0) := by
        funext j
        simp [List.getD]
      rw [hcomp, ih]
      simp [List.getD]
      ring

/-- A clamped horizontal sample from a uniform buffer is the uniform
pixel: the clamped column stays inside the row, so the index is in range. -/
theorem sampleClampH_replicate (w h y x : ℕ) (p : ImageOps.Pixel)
    (hw : 0 < w) (hy : y < h) (k : ℤ) :
    ImageOps.sampleClampH (List.replicate (w * h) p) w y x k = p := by
  unfold ImageOps.sampleClampH
  apply getD_replicate
  have hxx : (min ((w : ℤ) - 1) (max 0 ((x : ℤ) + k))).toNat < w := by omega
  calc y * w + (min ((w : ℤ) - 1) (max 0 ((x : ℤ) + k))).toNat
      < y * w + w := by omega
    _ = (y + 1) * w := by ring
    _ ≤ h * w := Nat.mul_le_mul_right w (by omega)
    _ = w * h := Nat.mul_comm h w

/-- A clamped vertical sample from a uniform buffer is the uniform pixel. -/
theorem sampleClampV_replicate (w h y x : ℕ) (p : ImageOps.Pixel)
    (hh : 0 < h) (hx : x < w) (k : ℤ) :
    ImageOps.sampleClampV (List.replicate (w * h) p) w h y x k = p := by
  unfold ImageOps.sampleClampV
  apply getD_replicate
  have hyy : (min ((h : ℤ) - 1) (max 0 ((y : ℤ) + k))).toNat < h := by omega
  calc (min ((h : ℤ) - 1) (max 0 ((y : ℤ) + k))).toNat * w + x
      < (min ((h : ℤ) - 1) (max 0 ((y : ℤ) + k))).toNat * w + w := by omega
    _ = ((min ((h : ℤ) - 1) (max 0 ((y : ℤ) + k))).toNat + 1) * w := by ring
    _ ≤ h * w := Nat.mul_le_mul_right w (by omega)
    _ = w * h := Nat.mul_comm h w

/-- The horizontal blur pass with a normalized kernel maps a uniform
buffer to itself. -/
theorem blurPassH_replicate (kernel : List ℚ) (radius w h : ℕ) (p : ImageOps.Pixel)
    (hk : kernel.sum = 1) (hlen : kernel.length = 2 * radius + 1)
    (hr : p.r ≤ 255) (hg : p.g ≤ 255) (hb : p.b ≤ 255) (ha : p.a ≤ 255) :
    ImageOps.blurPassH kernel radius w h (List.replicate (w * h) p) =
      List.replicate (w * h) p := by
  unfold ImageOps.blurPassH
  rw [List.eq_replicate_iff]
  refine ⟨by simp, ?_⟩
  intro q hq
  rw [List.mem_map] at hq
  obtain ⟨di, hdi, rfl⟩ := hq
  rw [List.mem_range] at hdi
  have hw : 0 < w := by
    rcases Nat.eq_zero_or_pos w with h0 | h0
    · subst h0
      simp at hdi
    · exact h0
  have hy : di / w < h := by
    rw [Nat.div_lt_iff_lt_mul hw]
    exact lt_of_lt_of_le hdi (Nat.mul_comm w h).le
  dsimp only
  have hs : ∀ k : ℤ, ImageOps.sampleClampH (List.replicate (w * h) p) w (di / w) (di % w) k = p :=
    fun k => sampleClampH_replicate w h (di / w) (di % w) p hw hy k
  simp only [hs]
  rw [show 2 * radius + 1 = kernel.length from hlen.symm]
  rw [sum_range_getD_mul, sum_range_getD_mul, sum_range_getD_mul, sum_range_getD_mul, hk]
  simp only [mul_one]
  rw [toByte_natCast _ hr, toByte_natCast _ hg, toByte_natCast _ hb, toByte_natCast _ ha]

/-- The vertical blur pass with a normalized kernel maps a uniform buffer
to itself. -/
theorem blurPassV_replicate (kernel : List ℚ) (radius w h : ℕ) (p : ImageOps.Pixel)
    (hk : kernel.sum = 1) (hlen : kernel.length = 2 * radius + 1)
    (hr : p.r ≤ 255) (hg : p.g ≤ 255) (hb : p.b ≤ 255) (ha : p.a ≤ 255) :
    ImageOps.blurPassV kernel radius w h (List.replicate (w * h) p) =
      List.replicate (w * h) p := by
  unfold ImageOps.blurPassV
  rw [List.eq_replicate_iff]
  refine ⟨by simp, ?_⟩
  intro q hq
  rw [List.mem_map] at hq
  obtain ⟨di, hdi, rfl⟩ := hq
  rw [List.mem_range] at hdi
  have hh : 0 < h := by
    rcases Nat.eq_zero_or_pos h with h0 | h0
    · subst h0
      simp at hdi
    · exact h0
  have hw : 0 < w := by
    rcases Nat.eq_zero_or_pos w with h0 | h0
    · subst h0
      simp at hdi
    · exact h0
  have hx : di % w < w := Nat.mod_lt di hw
  dsimp only
  have hs : ∀ k : ℤ, ImageOps.sampleClampV (List.replicate (w * h) p) w h (di / w) (di % w) k = p :=
    fun k => sampleClampV_replicate w h (di / w) (di % w) p hh hx k
  simp only [hs]
  rw [show 2 * radius + 1 = kernel.length from hlen.symm]
  rw [sum_range_getD_mul, sum_range_getD_mul, sum_range_getD_mul, sum_range_getD_mul, hk]
  simp only [mul_one]
  rw [toByte_natCast _ hr, toByte_natCast _ hg, toByte_natCast _ hb, toByte_natCast _ ha]

/-- applyGaussianBlur with any positive model of Math.exp maps a uniform
image to itself when sigma is above the guard. -/
theorem applyGaussianBlur_uniform (mexp : ℚ → ℚ) (hm : ∀ x, 0 < mexp x) (sigma : ℚ)
    (hs : 1/10 < sigma) (w h : ℕ) (p : ImageOps.Pixel)
    (hr : p.r ≤ 255) (hg : p.g ≤ 255) (hb : p.b ≤ 255) (ha : p.a ≤ 255) :
    ImageOps.applyGaussianBlur mexp (ImageOps.mkUniform w h p) sigma =
      ImageOps.mkUniform w h p := by
  have hk := makeGaussianKernel_sum mexp hm sigma hs
  have hlen := makeGaussianKernel_length mexp sigma
  unfold ImageOps.applyGaussianBlur ImageOps.mkUniform
  dsimp only
  rw [if_neg (not_le.mpr hs)]
  rw [blurPassH_replicate _ _ _ _ _ hk hlen hr hg hb ha,
    blurPassV_replicate _ _ _ _ _ hk hlen hr hg hb ha]

/-- C7: for sigma above the 0.1 guard the Gaussian kernel weights sum to
exactly 1 (in particular within the 1e-5 tolerance), and blurring a
constant-color image returns that same constant image (normalized kernel
plus clamp-to-edge), for every positive model of Math.exp. -/
theorem C7_kernel_normalized_constant_blur :
    ∀ (mexp : ℚ → ℚ), (∀ x, 0 < mexp x) → ∀ sigma : ℚ, 1/10 < sigma →
      (ImageOps.makeGaussianKernel mexp sigma).1.sum = 1 ∧
      |(ImageOps.makeGaussianKernel mexp sigma).1.sum - 1| ≤ 1/100000 ∧
      (∀ (w h : ℕ) (p : ImageOps.Pixel), p.r ≤ 255 → p.g ≤ 255 → p.b ≤ 255 → p.a ≤ 255 →
        ImageOps.applyGaussianBlur mexp (ImageOps.mkUniform w h p) sigma =
          ImageOps.mkUniform w h p) := by
  intro mexp hm sigma hs
  have hk := makeGaussianKernel_sum mexp hm sigma hs
  refine ⟨hk, ?_, ?_⟩
  · rw [hk]
    norm_num
  · intro w h p hr hg hb ha
    exact applyGaussianBlur_uniform mexp hm sigma hs w h p hr hg hb ha

/-- C7 (witness): with Math.exp modelled as the constant 1 and sigma 1,
the kernel sums to 1 and the 1 by 1 uniform image with pixel (9, 9, 9, 9)
is blurred to itself. -/
theorem C7_kernel_normalized_constant_blur_witness :
    (ImageOps.makeGaussianKernel (fun _ => 1) 1).1.sum = 1 ∧
    ImageOps.applyGaussianBlur (fun _ => 1) (ImageOps.mkUniform 1 1 ⟨9, 9, 9, 9⟩) 1 =
      ImageOps.mkUniform 1 1 ⟨9, 9, 9, 9⟩ := by
  have h := C7_kernel_normalized_constant_blur (fun _ => 1) (fun x => by norm_num) 1 (by norm_num)
  exact ⟨h.1, h.2.2 1 1 ⟨9, 9, 9, 9⟩ (by decide) (by decide) (by decide) (by decide)⟩
